import Mathlib

/-!
# ZoteroCoverage — shallow embedding of `src/main.rs`

The tool extracts citation keys of the form `@\w+\.\d{4}\w?` from a
document, decodes a JSON bibliography (an array of records each with a
`citation-key` string field), and reports every bibliography entry whose
key is never cited.

This file embeds the three core functions `get_citations_document`,
`get_citations_bibliography` and `get_citation_difference`, together with
a model `runMain` of the observable standard-output behaviour of `main`,
and proves the specified properties about them.

Modelling conventions:
* Rust's `Result<T, Box<dyn Error>>` becomes `Except String T`.
* `serde_json::from_str::<Vec<Citations>>` is modelled at the level of
  JSON values (`Json` below): the derived deserializer reads the fields
  of each object in order, errors on a missing, duplicated or
  non-string `citation-key` field, and ignores unknown fields.
* The regex crate's `\w` and `\d` classes are Unicode-aware; we model
  their ASCII fragment (`[A-Za-z0-9_]` and `[0-9]`), which is what the
  claims exercise.  For the fixed pattern `@(\w+\.\d{4}\w?)` the
  leftmost-match backtracking search degenerates to a deterministic
  scan, because `.` is not a word character: `\w+` must consume the
  maximal word-character run.
-/

namespace ZoteroCoverage

/-- `struct Citations { citation_key: String }` (field serialized as
`citation-key`). -/
structure Citations where
  citation_key : String
deriving DecidableEq, Repr

/-- JSON values, as produced by `serde_json` (numbers abstracted to `Int`;
no claim depends on number parsing). -/
inductive Json where
  | null : Json
  | bool : Bool → Json
  | num : Int → Json
  | str : String → Json
  | arr : List Json → Json
  | obj : List (String × Json) → Json

/-- The field loop of the derived `Deserialize` for `Citations`: scan the
object's fields in order; record the `citation-key` string, error on a
duplicate, a non-string value, or (at the end) a missing field; ignore
every other field. -/
def decodeEntryGo : List (String × Json) → Option String → Except String Citations
  | [], none => .error "missing field citation-key"
  | [], some k => .ok ⟨k⟩
  | (name, v) :: rest, acc =>
    if name = "citation-key" then
      match acc with
      | some _ => .error "duplicate field citation-key"
      | none =>
        match v with
        | .str s => decodeEntryGo rest (some s)
        | _ => .error "invalid type for citation-key"
    else decodeEntryGo rest acc

/-- Deserialize one `Citations` record from a JSON value. -/
def decodeEntry : Json → Except String Citations
  | .obj fields => decodeEntryGo fields none
  | _ => .error "invalid type: expected a map"

/-- `serde`'s sequence visitor for `Vec<Citations>`: decode the elements
in order, aborting at the first failure. -/
def decodeEntries : List Json → Except String (List Citations)
  | [] => .ok []
  | j :: rest => do
    let c ← decodeEntry j
    let cs ← decodeEntries rest
    .ok (c :: cs)

/-- `get_citations_bibliography`: `serde_json::from_str::<Vec<Citations>>`
modelled on the JSON value; a non-array payload fails like any other
type mismatch. -/
def get_citations_bibliography : Json → Except String (List Citations)
  | .arr xs => decodeEntries xs
  | _ => .error "invalid type: expected an array"

/-- ASCII fragment of the regex class `\w`. -/
def isWordChar (c : Char) : Bool :=
  c.isAlpha || c.isDigit || c = '_'

/-- Continuation of the match `\w+\.\d{4}\w?` after the leading word run
`name`: the remaining text must begin with a literal period and four
digits, optionally followed by one more word character. -/
def tryMatchTail (name : List Char) : List Char → Option (List Char × List Char)
  | '.' :: d1 :: d2 :: d3 :: d4 :: rest =>
    if d1.isDigit && d2.isDigit && d3.isDigit && d4.isDigit then
      match rest with
      | c :: rest2 =>
        if isWordChar c then
          some (name ++ '.' :: d1 :: d2 :: d3 :: d4 :: [c], rest2)
        else
          some (name ++ '.' :: d1 :: d2 :: d3 :: [d4], rest)
      | [] => some (name ++ '.' :: d1 :: d2 :: d3 :: [d4], [])
    else none
  | _ => none

/-- Attempt to match `\w+\.\d{4}\w?` at the start of `l` (the text just
after an `@`).  Returns the matched key and the remaining text.  Since
`.` is not a word character, `\w+` deterministically takes the maximal
word-character run. -/
def tryMatchAt (l : List Char) : Option (List Char × List Char) :=
  if (l.takeWhile isWordChar).isEmpty then none
  else tryMatchTail (l.takeWhile isWordChar) (l.dropWhile isWordChar)

/-- `captures_iter` for `@(?<key>\w+\.\d{4}\w?)`: scan left to right; at
each `@` attempt a match, emitting the capture and resuming after the
match (non-overlapping); otherwise advance one character.  `fuel`
bounds the recursion; `extractKeys` supplies `l.length`, which always
suffices since every step consumes at least one character. -/
def extractKeysAux : Nat → List Char → List (List Char)
  | 0, _ => []
  | _ + 1, [] => []
  | fuel + 1, c :: rest =>
    if c = '@' then
      match tryMatchAt rest with
      | some (k, rem) => k :: extractKeysAux fuel rem
      | none => extractKeysAux fuel rest
    else extractKeysAux fuel rest

/-- All regex captures of `@(?<key>\w+\.\d{4}\w?)` over `l`, in scan
order. -/
def extractKeys (l : List Char) : List (List Char) :=
  extractKeysAux l.length l

/-- `get_citations_document`: run the regex over the document and collect
the `key` captures; the function has no error path. -/
def get_citations_document (document : String) : Except String (List String) :=
  .ok ((extractKeys document.data).map String.mk)

/-- `get_citation_difference`: keep, in bibliography order, the entries
whose key is not in the set of extracted keys (`HashSet::contains` is
list membership on the extracted keys). -/
def get_citation_difference (document : List String) (json : List Citations) :
    Except String (List Citations) :=
  .ok (json.filter fun citation => !(document.contains citation.citation_key))

/-- Error taxonomy of a run (spec §7): I/O failures surfaced by `?`, and
the `unwrap` panics on a malformed bibliography or an unresolvable
bibliography reference. -/
inductive RunError where
  | inputReadError : RunError
  | malformedBibliography : RunError
  | missingBibliographyReference : RunError
deriving DecidableEq, Repr

/-- Observable outcome of a run: the lines written to standard output, in
order, and the final result. -/
structure RunOutcome where
  stdout : List String
  result : Except RunError Unit
deriving Repr

/-- The report block of `main` (lines 123–130): one confirmation line when
nothing is uncited, otherwise a count line followed by one key per
line (`Display for Citations` prints the key). -/
def report (differences : List Citations) : List String :=
  if differences.length = 0 then
    ["All sources cited"]
  else
    (toString differences.length ++ " Sources not cited:")
      :: differences.map (fun d => d.citation_key)

/-- The citation pipeline and report of `main` (lines 118–130), after the
bibliography string has been resolved; `out` is the standard output
produced so far.  The two `.error` arms after the bibliography decode
are unreachable (the extractor and the difference engine are total). -/
def runRest (out : List String) (document_md : String) (bibJson : Json) : RunOutcome :=
  match get_citations_bibliography bibJson with
  | .error _ => ⟨out, .error .malformedBibliography⟩
  | .ok citations_bibliography =>
    match get_citations_document document_md with
    | .error _ => ⟨out, .error .malformedBibliography⟩
    | .ok citations_document =>
      match get_citation_difference citations_document citations_bibliography with
      | .error _ => ⟨out, .error .malformedBibliography⟩
      | .ok differences => ⟨out ++ report differences, .ok ()⟩

/-- Model of `main`.  The I/O collaborators are parameters:
`docRead` is the result of reading the document; `cliBib` is
`--zotero-lib` (when present, the result of reading it, already parsed
to a JSON value); `headerPath` abstracts the YAML front-matter lookup
of the `bibliography` key (applied, as in the code, to the document
with tabs replaced by two spaces); `readFile` is `fs::read_to_string`
composed with JSON parsing.  A failed front-matter lookup aborts via
`unwrap` with nothing printed; the header branch prints the diagnostic
`Trying to open <path>` line before reading the file. -/
def runMain (docRead : Except Unit String) (cliBib : Option (Except Unit Json))
    (headerPath : String → Option String) (readFile : String → Except Unit Json) :
    RunOutcome :=
  match docRead with
  | .error _ => ⟨[], .error .inputReadError⟩
  | .ok document_md =>
    match cliBib with
    | some (.error _) => ⟨[], .error .inputReadError⟩
    | some (.ok bibJson) => runRest [] document_md bibJson
    | none =>
      match headerPath (document_md.replace "\t" "  ") with
      | none => ⟨[], .error .missingBibliographyReference⟩
      | some bibliography_path =>
        let out := ["Trying to open " ++ bibliography_path]
        match readFile bibliography_path with
        | .error _ => ⟨out, .error .inputReadError⟩
        | .ok bibJson => runRest out document_md bibJson

/-! ## Specification-side predicates -/

/-- Spec-side shape of an emitted citation key: one or more word
characters, a literal period, exactly four digits, and an optional
single trailing word character. -/
def keyShape (l : List Char) : Bool :=
  !(l.takeWhile isWordChar).isEmpty &&
  match l.dropWhile isWordChar with
  | '.' :: d1 :: d2 :: d3 :: d4 :: t =>
    d1.isDigit && d2.isDigit && d3.isDigit && d4.isDigit &&
    (match t with
     | [] => true
     | [c] => isWordChar c
     | _ => false)
  | _ => false

/-- Spec-side well-formedness of one bibliography record: an object
carrying the `citation-key` field exactly once, with a string value
(arbitrary further fields are allowed). -/
def specGoodEntry : Json → Bool
  | .obj fields =>
    fields.countP (fun f => f.1 = "citation-key") = 1 &&
    (match fields.find? (fun f => f.1 = "citation-key") with
     | some (_, .str _) => true
     | _ => false)
  | _ => false

/-- Spec-side well-formedness of the bibliography payload: an array all
of whose elements are well-formed records. -/
def specWellFormedBib : Json → Bool
  | .arr xs => xs.all specGoodEntry
  | _ => false

/-! ## Helper lemmas -/

theorem contains_true_iff_mem {α : Type} [BEq α] [LawfulBEq α] (l : List α) (a : α) :
    l.contains a = true ↔ a ∈ l := by
  simp [List.contains, List.elem_iff]

theorem contains_false_iff_not_mem {α : Type} [BEq α] [LawfulBEq α] (l : List α) (a : α) :
    l.contains a = false ↔ a ∉ l := by
  rw [← Bool.not_eq_true, contains_true_iff_mem]

theorem takeWhile_append_cons {p : Char → Bool} (name : List Char) (x : Char)
    (rest : List Char) (h : ∀ c ∈ name, p c = true) (hx : p x = false) :
    (name ++ x :: rest).takeWhile p = name ∧ (name ++ x :: rest).dropWhile p = x :: rest := by
  induction name with
  | nil => simp [List.takeWhile_cons, List.dropWhile_cons, hx]
  | cons c t ih =>
    have hc : p c = true := h c (by simp)
    have ht : ∀ d ∈ t, p d = true := fun d hm => h d (by simp [hm])
    obtain ⟨h1, h2⟩ := ih ht
    simp [List.takeWhile_cons, List.dropWhile_cons, hc, h1, h2]

theorem tryMatchTail_shape {name t k r : List Char} (hname : ¬name.isEmpty = true)
    (hmem : ∀ x ∈ name, isWordChar x = true)
    (h : tryMatchTail name t = some (k, r)) : keyShape k = true := by
  have hdot : isWordChar '.' = false := by decide
  unfold tryMatchTail at h
  split at h
  · rename_i d1 d2 d3 d4 rest
    split at h
    · rename_i hdig
      simp only [Bool.and_eq_true] at hdig
      obtain ⟨⟨⟨hd1, hd2⟩, hd3⟩, hd4⟩ := hdig
      split at h
      · rename_i c rest2
        split at h
        · rename_i hcw
          obtain ⟨hk, -⟩ : name ++ '.' :: d1 :: d2 :: d3 :: d4 :: [c] = k ∧ rest2 = r := by
            simpa using h
          obtain ⟨tw, dw⟩ := takeWhile_append_cons name '.'
            (d1 :: d2 :: d3 :: d4 :: [c]) hmem hdot
          unfold keyShape
          rw [← hk, tw, dw]
          simp [hname, hd1, hd2, hd3, hd4, hcw]
        · obtain ⟨hk, -⟩ : name ++ '.' :: d1 :: d2 :: d3 :: [d4] = k ∧ c :: rest2 = r := by
            simpa using h
          obtain ⟨tw, dw⟩ := takeWhile_append_cons name '.'
            (d1 :: d2 :: d3 :: [d4]) hmem hdot
          unfold keyShape
          rw [← hk, tw, dw]
          simp [hname, hd1, hd2, hd3, hd4]
      · obtain ⟨hk, -⟩ : name ++ '.' :: d1 :: d2 :: d3 :: [d4] = k ∧ ([] : List Char) = r := by
          simpa using h
        obtain ⟨tw, dw⟩ := takeWhile_append_cons name '.'
          (d1 :: d2 :: d3 :: [d4]) hmem hdot
        unfold keyShape
        rw [← hk, tw, dw]
        simp [hname, hd1, hd2, hd3, hd4]
    · exact absurd h (by simp)
  · exact absurd h (by simp)

theorem tryMatchAt_shape {l k r : List Char} (h : tryMatchAt l = some (k, r)) :
    keyShape k = true := by
  unfold tryMatchAt at h
  split at h
  · exact absurd h (by simp)
  · rename_i hne
    exact tryMatchTail_shape hne (fun x hx => List.mem_takeWhile_imp hx) h

theorem extractKeysAux_shape (fuel : Nat) :
    ∀ (l k : List Char), k ∈ extractKeysAux fuel l → keyShape k = true := by
  induction fuel with
  | zero => intro l k hk; simp [extractKeysAux] at hk
  | succ n ih =>
    intro l k hk
    match l with
    | [] => simp [extractKeysAux] at hk
    | c :: rest =>
      rw [extractKeysAux] at hk
      split at hk
      · split at hk
        · rename_i k' rem heq
          rcases List.mem_cons.mp hk with rfl | hk'
          · exact tryMatchAt_shape heq
          · exact ih rem k hk'
        · exact ih rest k hk
      · exact ih rest k hk

theorem extractKeys_shape {l k : List Char} (h : k ∈ extractKeys l) : keyShape k = true :=
  extractKeysAux_shape l.length l k h

theorem keyShape_head {k : List Char} (h : keyShape k = true) :
    ∃ c t, k = c :: t ∧ isWordChar c = true := by
  match k with
  | [] => simp [keyShape, List.takeWhile_nil] at h
  | c :: t =>
    refine ⟨c, t, rfl, ?_⟩
    by_contra hc
    have hc' : isWordChar c = false := by simpa using hc
    simp [keyShape, List.takeWhile_cons, hc'] at h

theorem keyShape_chars {k : List Char} (h : keyShape k = true) :
    ∀ x ∈ k, (isWordChar x || x = '.') = true := by
  intro x hx
  by_cases hw : isWordChar x = true
  · simp [hw]
  · unfold keyShape at h
    rw [Bool.and_eq_true] at h
    obtain ⟨_, h2⟩ := h
    have hx' : x ∈ k.takeWhile isWordChar ∨ x ∈ k.dropWhile isWordChar := by
      rw [← List.takeWhile_append_dropWhile isWordChar k] at hx
      exact List.mem_append.mp hx
    rcases hx' with h3 | h3
    · exact absurd (List.mem_takeWhile_imp h3) hw
    · split at h2
      · rename_i d1 d2 d3 d4 t heq
        rw [heq] at h3
        simp only [Bool.and_eq_true] at h2
        obtain ⟨⟨⟨⟨hd1, hd2⟩, hd3⟩, hd4⟩, htail⟩ := h2
        simp only [List.mem_cons] at h3
        rcases h3 with rfl | rfl | rfl | rfl | rfl | h3
        · simp
        · simp [isWordChar, hd1]
        · simp [isWordChar, hd2]
        · simp [isWordChar, hd3]
        · simp [isWordChar, hd4]
        · split at htail
          · simp at h3
          · rename_i c0
            rw [List.mem_singleton] at h3
            subst h3
            simp [htail]
          · exact absurd htail (by simp)
      · exact absurd h2 (by simp)

theorem extractKeys_not_dot_head {l k : List Char} (h : k ∈ extractKeys l) :
    k.head? ≠ some '.' := by
  obtain ⟨c, t, rfl, hc⟩ := keyShape_head (extractKeys_shape h)
  intro hcontra
  rw [List.head?_cons, Option.some.injEq] at hcontra
  subst hcontra
  exact absurd hc (by decide)

theorem exceptBind_ok {ε α β : Type} (a : α) (f : α → Except ε β) :
    (Except.ok a >>= f : Except ε β) = f a := rfl

theorem exceptBind_error {ε α β : Type} (e : ε) (f : α → Except ε β) :
    (Except.error e >>= f : Except ε β) = .error e := rfl

theorem decodeEntryGo_some_isOk (fields : List (String × Json)) (k : String) :
    (decodeEntryGo fields (some k)).isOk = true ↔
      fields.countP (fun f => f.1 = "citation-key") = 0 := by
  induction fields with
  | nil => simp [decodeEntryGo, Except.isOk, Except.toBool]
  | cons f rest ih =>
    obtain ⟨name, v⟩ := f
    by_cases hn : name = "citation-key"
    · simp [decodeEntryGo, hn, List.countP_cons, Except.isOk, Except.toBool]
    · simp [decodeEntryGo, hn, List.countP_cons, ih]

theorem decodeEntryGo_none_isOk (fields : List (String × Json)) :
    (decodeEntryGo fields none).isOk = true ↔ specGoodEntry (.obj fields) = true := by
  induction fields with
  | nil => simp [decodeEntryGo, specGoodEntry, Except.isOk, Except.toBool]
  | cons f rest ih =>
    obtain ⟨name, v⟩ := f
    by_cases hn : name = "citation-key"
    · match v with
      | .str s =>
        rw [show decodeEntryGo ((name, Json.str s) :: rest) none
              = decodeEntryGo rest (some s) by simp [decodeEntryGo, hn]]
        rw [decodeEntryGo_some_isOk]
        simp [specGoodEntry, List.countP_cons, List.find?_cons, hn]
      | .null =>
        simp [decodeEntryGo, hn, specGoodEntry, List.find?_cons, Except.isOk, Except.toBool]
      | .bool b =>
        simp [decodeEntryGo, hn, specGoodEntry, List.find?_cons, Except.isOk, Except.toBool]
      | .num n =>
        simp [decodeEntryGo, hn, specGoodEntry, List.find?_cons, Except.isOk, Except.toBool]
      | .arr xs =>
        simp [decodeEntryGo, hn, specGoodEntry, List.find?_cons, Except.isOk, Except.toBool]
      | .obj fs =>
        simp [decodeEntryGo, hn, specGoodEntry, List.find?_cons, Except.isOk, Except.toBool]
    · rw [show decodeEntryGo ((name, v) :: rest) none = decodeEntryGo rest none by
        simp [decodeEntryGo, hn]]
      rw [ih]
      simp [specGoodEntry, List.countP_cons, List.find?_cons, hn]

theorem decodeEntry_isOk (j : Json) :
    (decodeEntry j).isOk = true ↔ specGoodEntry j = true := by
  match j with
  | .obj fields => exact decodeEntryGo_none_isOk fields
  | .null => simp [decodeEntry, specGoodEntry, Except.isOk, Except.toBool]
  | .bool b => simp [decodeEntry, specGoodEntry, Except.isOk, Except.toBool]
  | .num n => simp [decodeEntry, specGoodEntry, Except.isOk, Except.toBool]
  | .str s => simp [decodeEntry, specGoodEntry, Except.isOk, Except.toBool]
  | .arr xs => simp [decodeEntry, specGoodEntry, Except.isOk, Except.toBool]

theorem decodeEntry_ok_of_good {j : Json} (h : specGoodEntry j = true) :
    ∃ c, decodeEntry j = .ok c := by
  have := (decodeEntry_isOk j).mpr h
  match hd : decodeEntry j with
  | .ok c => exact ⟨c, rfl⟩
  | .error e => rw [hd] at this; simp [Except.isOk, Except.toBool] at this

theorem decodeEntries_good {xs : List Json} (h : ∀ j ∈ xs, specGoodEntry j = true) :
    ∃ cs, decodeEntries xs = .ok cs ∧
      List.Forall₂ (fun j c => decodeEntry j = .ok c) xs cs := by
  induction xs with
  | nil => exact ⟨[], rfl, .nil⟩
  | cons j rest ih =>
    obtain ⟨c, hc⟩ := decodeEntry_ok_of_good (h j (by simp))
    obtain ⟨cs, hcs, hfa⟩ := ih (fun j' hj' => h j' (by simp [hj']))
    refine ⟨c :: cs, ?_, .cons hc hfa⟩
    simp [decodeEntries, hc, hcs, exceptBind_ok]

theorem decodeEntries_isOk (xs : List Json) :
    (decodeEntries xs).isOk = true ↔ xs.all specGoodEntry = true := by
  induction xs with
  | nil => simp [decodeEntries, Except.isOk, Except.toBool]
  | cons j rest ih =>
    constructor
    · intro h
      match hd : decodeEntry j, hds : decodeEntries rest with
      | .ok c, .ok cs =>
        rw [List.all_cons, Bool.and_eq_true, ← ih, hds]
        refine ⟨(decodeEntry_isOk j).mp (by simp [hd, Except.isOk, Except.toBool]), by
          simp [Except.isOk, Except.toBool]⟩
      | .ok c, .error e =>
        rw [decodeEntries, hd, hds] at h
        simp [exceptBind_ok, exceptBind_error, Except.isOk, Except.toBool] at h
      | .error e, _ =>
        rw [decodeEntries, hd] at h
        simp [exceptBind_error, Except.isOk, Except.toBool] at h
    · intro h
      rw [List.all_cons, Bool.and_eq_true] at h
      obtain ⟨h1, h2⟩ := h
      obtain ⟨c, hc⟩ := decodeEntry_ok_of_good h1
      obtain ⟨cs, hcs, -⟩ := decodeEntries_good (fun j' hj' =>
        (List.all_eq_true).mp h2 j' hj')
      simp [decodeEntries, hc, hcs, exceptBind_ok, Except.isOk, Except.toBool]

/-! ## Claim theorems -/

/-- C1: the Difference Engine returns exactly the ordered subsequence of
bibliography entries whose citation key does not occur anywhere in the
extracted key sequence; if the extracted sequence is empty the output is
the full bibliography in original order, and if every bibliography
entry's key occurs in the extracted sequence the output is empty. -/
theorem difference_contract (document : List String) (json : List Citations)
    (r : List Citations) (h : get_citation_difference document json = .ok r) :
    r.Sublist json ∧
    (∀ c : Citations, c ∈ r ↔ c ∈ json ∧ c.citation_key ∉ document) ∧
    (document = [] → r = json) ∧
    ((∀ c ∈ json, c.citation_key ∈ document) → r = []) := by
  obtain rfl : r = json.filter (fun c => !(document.contains c.citation_key)) := by
    simpa [get_citation_difference] using h.symm
  refine ⟨List.filter_sublist json, ?_, ?_, ?_⟩
  · intro c
    rw [List.mem_filter, Bool.not_eq_true', contains_false_iff_not_mem]
  · rintro rfl
    exact List.filter_eq_self.mpr (fun a _ => rfl)
  · intro hall
    refine List.filter_eq_nil_iff.mpr (fun c hc => ?_)
    simp [contains_true_iff_mem, hall c hc]

theorem difference_contract_witness :
    ([(⟨"a"⟩ : Citations)]).Sublist [⟨"a"⟩] :=
  (difference_contract ["b"] [⟨"a"⟩] [⟨"a"⟩] rfl).1

/-- C2 (counterexample): two bibliography entries with the same key, with
that key absent from the extracted sequence, do NOT collapse: the
Difference Engine reports the key once per duplicate entry. -/
theorem difference_duplicate_collapse_counterexample :
    get_citation_difference [] [⟨"key1"⟩, ⟨"key1"⟩] = .ok [⟨"key1"⟩, ⟨"key1"⟩] ∧
    ([⟨"key1"⟩, ⟨"key1"⟩] : List Citations).countP (fun c => c.citation_key = "key1") = 2 :=
  ⟨rfl, by decide⟩

/-- C2 (amended): duplicate bibliography entries do not collapse in the
difference step — a key absent from the extracted sequence appears in
the output once per bibliography entry carrying it; only duplicates
inside the extracted sequence are absorbed by set semantics. -/
theorem difference_preserves_duplicate_entries (document : List String)
    (json : List Citations) (r : List Citations) (k : String)
    (h : get_citation_difference document json = .ok r) (hk : k ∉ document) :
    r.countP (fun c => c.citation_key = k) = json.countP (fun c => c.citation_key = k) := by
  obtain rfl : r = json.filter (fun c => !(document.contains c.citation_key)) := by
    simpa [get_citation_difference] using h.symm
  rw [List.countP_filter]
  refine List.countP_congr (fun c hc => ?_)
  rw [Bool.and_eq_true]
  constructor
  · exact fun hcc => hcc.1
  · intro hcc
    refine ⟨hcc, ?_⟩
    have hck : c.citation_key = k := of_decide_eq_true hcc
    rw [hck, Bool.not_eq_true', contains_false_iff_not_mem]
    exact hk

theorem difference_preserves_duplicate_entries_witness :
    ([⟨"key1"⟩, ⟨"key1"⟩] : List Citations).countP (fun c => c.citation_key = "key1")
      = ([⟨"key1"⟩, ⟨"key1"⟩] : List Citations).countP (fun c => c.citation_key = "key1") :=
  difference_preserves_duplicate_entries [] [⟨"key1"⟩, ⟨"key1"⟩] [⟨"key1"⟩, ⟨"key1"⟩]
    "key1" rfl (by decide)

/-- C3 (counterexample): on `"@a.12345"` the extractor emits `a.12345`,
whose character after the four year digits is `5` — a digit, not a
letter, refuting "the character after the four year digits, when
present, is always a letter". -/
theorem trailing_digit_counterexample :
    get_citations_document "@a.12345" = .ok ["a.12345"] ∧
    '5'.isAlpha = false ∧ '5'.isDigit = true :=
  ⟨rfl, by decide, by decide⟩

/-- C3 (amended): every emitted citation key consists of one or more word
characters, a literal period, exactly four digits, and an optional
single trailing WORD character (letter, digit or underscore — not only
a letter). -/
theorem extracted_key_shape (document : String) (ks : List String)
    (h : get_citations_document document = .ok ks) :
    ks.all (fun s => keyShape s.data) = true := by
  obtain rfl : ks = (extractKeys document.data).map String.mk := by
    simpa [get_citations_document] using h.symm
  rw [List.all_eq_true]
  intro s hs
  rw [List.mem_map] at hs
  obtain ⟨l, hl, rfl⟩ := hs
  exact extractKeys_shape hl

theorem extracted_key_shape_witness :
    (["a.2024b"] : List String).all (fun s => keyShape s.data) = true :=
  extracted_key_shape "@a.2024b" ["a.2024b"] rfl

/-- C4: the Key Extractor emits the captured text of each non-overlapping
left-to-right match without the `@` sigil, preserving duplicates and
scan order, and skips text lacking the four-digit year: the specified
example yields exactly `[key.1991, key.2002]`, a repeated citation is
emitted twice in order, and no emitted key ever contains `@`. -/
theorem extractor_scan_behaviour :
    get_citations_document "Here is a citation @key.1991 and another @key.2002. Invalid @key."
      = .ok ["key.1991", "key.2002"] ∧
    get_citations_document "@a.2000 @a.2000" = .ok ["a.2000", "a.2000"] ∧
    ∀ l : List Char, (extractKeys l).all (fun k => !(k.contains '@')) = true := by
  refine ⟨rfl, rfl, fun l => ?_⟩
  rw [List.all_eq_true]
  intro k hk
  rw [Bool.not_eq_true', contains_false_iff_not_mem]
  intro hat
  exact absurd (keyShape_chars (extractKeys_shape hk) '@' hat) (by decide)

/-- C5: decoding a well-formed bibliography array (each element an object
carrying the `citation-key` field with a string value, plus arbitrary
further fields) succeeds, yields as many entries as array elements, and
preserves the array's order. -/
theorem bibliography_decode_complete (xs : List Json)
    (h : ∀ j ∈ xs, specGoodEntry j = true) :
    ∃ entries, get_citations_bibliography (.arr xs) = .ok entries ∧
      entries.length = xs.length ∧
      List.Forall₂ (fun j c => decodeEntry j = .ok c) xs entries := by
  obtain ⟨cs, hcs, hfa⟩ := decodeEntries_good h
  exact ⟨cs, hcs, (List.Forall₂.length_eq hfa).symm, hfa⟩

theorem bibliography_decode_complete_witness :
    ∃ entries,
      get_citations_bibliography
        (.arr [.obj [("citation-key", .str "k1"), ("extra", .null)],
               .obj [("citation-key", .str "k2")]]) = .ok entries ∧
      entries.length
        = [Json.obj [("citation-key", .str "k1"), ("extra", .null)],
           Json.obj [("citation-key", .str "k2")]].length ∧
      List.Forall₂ (fun j c => decodeEntry j = .ok c)
        [Json.obj [("citation-key", .str "k1"), ("extra", .null)],
         Json.obj [("citation-key", .str "k2")]] entries :=
  bibliography_decode_complete _ (by decide)

/-- C6: `get_citations_bibliography` fails exactly when the payload is not
an array or some element is not an object carrying the `citation-key`
field (exactly once) with a string value; in particular an array with
one record lacking the field fails. -/
theorem bibliography_decode_error_iff :
    (∀ j : Json, (get_citations_bibliography j).isOk = specWellFormedBib j) ∧
    get_citations_bibliography (.arr [.obj []]) = .error "missing field citation-key" := by
  refine ⟨fun j => ?_, rfl⟩
  match j with
  | .arr xs =>
    rw [Bool.eq_iff_iff]
    exact decodeEntries_isOk xs
  | .null => rfl
  | .bool b => rfl
  | .num n => rfl
  | .str s => rfl
  | .obj fs => rfl

theorem runRest_stdout_of_error (out : List String) (document_md : String)
    (bibJson : Json) (h : (runRest out document_md bibJson).result.isOk = false) :
    (runRest out document_md bibJson).stdout = out := by
  unfold runRest at h ⊢
  cases hb : get_citations_bibliography bibJson with
  | error e => simp [hb]
  | ok entries =>
    rw [hb] at h
    simp [get_citations_document, get_citation_difference, Except.isOk,
      Except.toBool] at h

/-- C7 (counterexample): with the bibliography location taken from the
document header, a `MalformedBibliography` failure occurs AFTER the
diagnostic path-opening line, so standard output is not empty. -/
theorem malformed_bib_after_diag_counterexample :
    runMain (.ok "") none (fun _ => some "bib.json") (fun _ => .ok (.str "x"))
      = ⟨["Trying to open bib.json"], .error .malformedBibliography⟩ ∧
    ["Trying to open bib.json"] ≠ ([] : List String) :=
  ⟨rfl, by decide⟩

/-- C7 (amended): on every error the run writes nothing to standard
output, except errors in the header branch that arise after the
bibliography path lookup — an `InputReadError` reading the referenced
path or a `MalformedBibliography` of the referenced file — which leave
exactly the diagnostic path-opening line on standard output; a
`MalformedBibliography` with a command-line bibliography prints
nothing. -/
theorem run_errors_silent_except_header_diag
    (docRead : Except Unit String) (cliBib : Option (Except Unit Json))
    (headerPath : String → Option String) (readFile : String → Except Unit Json)
    (h : (runMain docRead cliBib headerPath readFile).result.isOk = false) :
    (runMain docRead cliBib headerPath readFile).stdout = [] ∨
    (cliBib = none ∧ ∃ d p, docRead = .ok d ∧
      headerPath (d.replace "\t" "  ") = some p ∧
      (runMain docRead cliBib headerPath readFile).stdout = ["Trying to open " ++ p]) := by
  match hdoc : docRead with
  | .error e => left; simp [runMain]
  | .ok d =>
    match hcli : cliBib with
    | some (.error e) => left; simp [runMain]
    | some (.ok bibJson) =>
      exact Or.inl (runRest_stdout_of_error [] d bibJson h)
    | none =>
      cases hp : headerPath (d.replace "\t" "  ") with
      | none => left; simp [runMain, hp]
      | some p =>
        cases hr : readFile p with
        | error e =>
          right
          exact ⟨rfl, d, p, rfl, hp, by simp [runMain, hp, hr]⟩
        | ok bibJson =>
          right
          refine ⟨rfl, d, p, rfl, hp, ?_⟩
          simp only [runMain, hp, hr] at h ⊢
          exact runRest_stdout_of_error _ d bibJson h

theorem run_errors_silent_witness :
    (runMain (.error ()) none (fun _ => none) (fun _ => .error ())).stdout = [] ∨
    ((none : Option (Except Unit Json)) = none ∧ ∃ d p,
      (Except.error () : Except Unit String) = .ok d ∧
      (fun _ : String => (none : Option String)) (d.replace "\t" "  ") = some p ∧
      (runMain (.error ()) none (fun _ => none) (fun _ => .error ())).stdout
        = ["Trying to open " ++ p]) :=
  run_errors_silent_except_header_diag (.error ()) none (fun _ => none)
    (fun _ => .error ()) rfl

/-- C8: the report on standard output is a single confirmation line when
the uncited list is empty, and otherwise the count line
`<N> Sources not cited:` (with `N` the number of uncited entries)
followed by exactly one line per uncited entry holding its citation
key. -/
theorem report_shape (doc : String) (bibJson : Json) (entries : List Citations)
    (keys : List String) (d : List Citations)
    (headerPath : String → Option String) (readFile : String → Except Unit Json)
    (h1 : get_citations_bibliography bibJson = .ok entries)
    (h2 : get_citations_document doc = .ok keys)
    (h3 : get_citation_difference keys entries = .ok d) :
    runMain (.ok doc) (some (.ok bibJson)) headerPath readFile =
      ⟨if d.length = 0 then ["All sources cited"]
       else (toString d.length ++ " Sources not cited:")
         :: d.map (fun c => c.citation_key),
       .ok ()⟩ := by
  simp only [runMain, runRest, h1, h2, h3, List.nil_append]
  simp [report]

theorem report_shape_witness :
    runMain (.ok "")
      (some (.ok (.arr [.obj [("citation-key", .str "key1")],
                        .obj [("citation-key", .str "key2")]])))
      (fun _ => none) (fun _ => .error ())
      = ⟨["2 Sources not cited:", "key1", "key2"], .ok ()⟩ := by
  have := report_shape "" (.arr [.obj [("citation-key", .str "key1")],
      .obj [("citation-key", .str "key2")]])
    [⟨"key1"⟩, ⟨"key2"⟩] [] [⟨"key1"⟩, ⟨"key2"⟩]
    (fun _ => none) (fun _ => .error ()) rfl rfl rfl
  simpa using this

/-- C9: neither core stage has a failure path — extraction and the
difference computation return a successful result on every input. -/
theorem pipeline_total :
    (∀ document : String, ∃ ks, get_citations_document document = .ok ks) ∧
    (∀ (document : List String) (json : List Citations),
      ∃ r, get_citation_difference document json = .ok r) :=
  ⟨fun _ => ⟨_, rfl⟩, fun _ _ => ⟨_, rfl⟩⟩

/-- C10: every extracted key starts with a word character, so no extracted
key begins with a period; consequently a bibliography entry whose
citation key starts with `.` is reported as uncited for every document
text. -/
theorem dot_keys_always_uncited :
    (∀ l : List Char, (extractKeys l).all
      (fun k => match k.head? with | some c => isWordChar c | none => false) = true) ∧
    (∀ (doc : String) (bib : List Citations) (ks : List String) (r : List Citations)
      (c : Citations), get_citations_document doc = .ok ks →
      get_citation_difference ks bib = .ok r →
      c ∈ bib → c.citation_key.data.head? = some '.' → c ∈ r) := by
  constructor
  · intro l
    rw [List.all_eq_true]
    intro k hk
    obtain ⟨c, t, rfl, hc⟩ := keyShape_head (extractKeys_shape hk)
    simpa using hc
  · intro doc bib ks r c h1 h2 hc hdot
    obtain rfl : ks = (extractKeys doc.data).map String.mk := by
      simpa [get_citations_document] using h1.symm
    obtain rfl : r = bib.filter
        (fun c => !(((extractKeys doc.data).map String.mk).contains c.citation_key)) := by
      simpa [get_citation_difference] using h2.symm
    rw [List.mem_filter]
    refine ⟨hc, ?_⟩
    rw [Bool.not_eq_true', contains_false_iff_not_mem]
    intro hmem
    rw [List.mem_map] at hmem
    obtain ⟨l, hl, hmk⟩ := hmem
    have hld : l = c.citation_key.data := by rw [← hmk]
    refine extractKeys_not_dot_head hl ?_
    rw [hld, hdot]

theorem dot_keys_always_uncited_witness :
    (⟨".2024"⟩ : Citations) ∈ ([⟨".2024"⟩] : List Citations) :=
  dot_keys_always_uncited.2 "" [⟨".2024"⟩] [] [⟨".2024"⟩] ⟨".2024"⟩
    rfl rfl (by decide) rfl

end ZoteroCoverage
